import Mathlib

/-!
Verification of the batch alignment-and-segmentation pipeline in
`examples/libriheavy/matching.py`.

The pure data flow of the pipeline is embedded shallowly: cuts, supervisions
and their alignments become records; the filesystem becomes an explicit
environment; list-building loops become structural recursions threading the
same accumulators as the source.  The textsearch library types used by the
pipeline (`Transcript`, `TextSource`, `SourcedText` and the functions
`texts_to_sourced_texts`, `append_texts`, `filter_texts`) are not part of the
sources at hand; they are modelled from the specification and marked as such.
-/

namespace Matching

/-- Tokens are integer symbol codes (np.int32 values in the source). -/
abbrev Token := Nat

/-- One entry of a supervision alignment (an element of
sup.alignment of kind symbol): a symbol and its start time. -/
structure AliItem where
  symbol : Token
  start : Int
deriving DecidableEq

/-- An input supervision of a cut, with its symbol/time alignment. -/
structure Supervision where
  id : String
  channel : Nat
  language : String
  speaker : String
  alignment : List AliItem
deriving DecidableEq

instance : Inhabited Supervision := ⟨⟨"", 0, "", "", []⟩⟩

/-- An input cut of the manifest (lhotse MonoCut as used by the pipeline). -/
structure MonoCut where
  id : String
  channel : Nat
  recording_id : String
  text_path : String
  supervisions : List Supervision
deriving DecidableEq

instance : Inhabited MonoCut := ⟨⟨"", 0, "", "", []⟩⟩

/-- The filesystem environment seen by load_data: which paths exist
(os.path.isfile) and the tokenized content of each existing file. -/
structure FileSys where
  isfile : String → Bool
  content : String → List Token

/-- Modelled from the spec: Transcript (textsearch datatypes, absent from the
sources at hand).  A query document built by Transcript.from_dict from a
supervision's symbol/time alignment; its token count is the number of
alignment entries. -/
structure Transcript where
  name : String
  tokens : List Token
  times : List Int
deriving DecidableEq

/-- Modelled from the spec: TextSource (textsearch datatypes, absent from
the sources at hand).  A reference document built by TextSource.from_str
from the text of one book file. -/
structure TextSource where
  name : String
  tokens : List Token
deriving DecidableEq

/-- Modelled from the spec: SourcedText (spec section 3), the composite
offset-addressable concatenation of all documents of a batch. -/
structure SourcedText where
  docs : List (List Token)
deriving DecidableEq

/-- Modelled from the spec: the monotone boundary table of a SourcedText;
doc_splits k is the global token index at which document k starts. -/
def SourcedText.doc_splits (st : SourcedText) (k : Nat) : Nat :=
  ((st.docs.take k).map List.length).sum

/-- Modelled from the spec: texts_to_sourced_texts turns each document into a
one-document SourcedText, applying uppercase normalization uniformly. -/
def texts_to_sourced_texts (docs : List (List Token)) (upper : Token → Token) :
    List SourcedText :=
  docs.map (fun d => ⟨[d.map upper]⟩)

/-- Modelled from the spec: append_texts concatenates SourcedTexts into one,
merging their boundary tables. -/
def append_texts (sts : List SourcedText) : SourcedText :=
  ⟨(sts.map SourcedText.docs).flatten⟩

/-- Modelled from the spec: filter_texts keeps only the tokens satisfying the
predicate, preserving the per-document structure of the boundary table. -/
def filter_texts (st : SourcedText) (fn : Token → Bool) : SourcedText :=
  ⟨st.docs.map (fun d => d.filter fn)⟩

/-- Accumulator threaded through the cut loop of load_data: the four local
variables transcripts, transcripts_cut_index, book_paths and
num_query_tokens. -/
structure LoadAcc where
  transcripts : List Transcript
  transcripts_cut_index : List (Nat × Nat)
  book_paths : List String
  num_query_tokens : Nat
deriving DecidableEq

def initAcc : LoadAcc := ⟨[], [], [], 0⟩

/-- Python set add, modelled as append-if-absent into an ordered list. -/
def insertPath (s : List String) (p : String) : List String :=
  if p ∈ s then s else s ++ [p]

/-- Body of the supervision loop of load_data: build the text and time lists
from the alignment and, when the text list is non-empty, append the
transcript, its (cut, supervision) index pair, and its token count. -/
def processSup (i j : Nat) (sup : Supervision) (acc : LoadAcc) : LoadAcc :=
  let text_list := sup.alignment.map AliItem.symbol
  let begin_times_list := sup.alignment.map AliItem.start
  if text_list = [] then acc
  else
    { acc with
      num_query_tokens := acc.num_query_tokens + text_list.length,
      transcripts := acc.transcripts ++ [⟨sup.id, text_list, begin_times_list⟩],
      transcripts_cut_index := acc.transcripts_cut_index ++ [(i, j)] }

def processSups (i : Nat) : Nat → List Supervision → LoadAcc → LoadAcc
  | _, [], acc => acc
  | j, sup :: rest, acc => processSups i (j + 1) rest (processSup i j sup acc)

/-- Body of the cut loop of load_data: skip the cut when its book file is
missing, otherwise process its supervisions and record its book path. -/
def processCut (fs : FileSys) (i : Nat) (cut : MonoCut) (acc : LoadAcc) : LoadAcc :=
  if fs.isfile cut.text_path then
    let acc1 := processSups i 0 cut.supervisions acc
    { acc1 with book_paths := insertPath acc1.book_paths cut.text_path }
  else acc

def collectCuts (fs : FileSys) : Nat → List MonoCut → LoadAcc → LoadAcc
  | _, [], acc => acc
  | i, cut :: rest, acc => collectCuts fs (i + 1) rest (processCut fs i cut acc)

/-- The accumulator produced by the whole cut loop of load_data. -/
def loadAcc (fs : FileSys) (batch_cuts : List MonoCut) : LoadAcc :=
  collectCuts fs 0 batch_cuts initAcc

/-- The books list of load_data: each deduplicated path is opened and
tokenized once, yielding one reference document per unique path. -/
def loadBooks (fs : FileSys) (batch_cuts : List MonoCut) : List TextSource :=
  (loadAcc fs batch_cuts).book_paths.map (fun p => ⟨p, fs.content p⟩)

/-- The dict returned by load_data on success. -/
structure LoadResult where
  num_query_tokens : Nat
  cut_indexes : List (Nat × Nat)
  sourced_text : SourcedText
deriving DecidableEq

/-- The local sourced_transcripts of load_data: all query documents
appended, uppercased when configured. -/
def sourced_transcripts_of (fs : FileSys) (upper : Token → Token)
    (batch_cuts : List MonoCut) : SourcedText :=
  append_texts (texts_to_sourced_texts ((loadAcc fs batch_cuts).transcripts.map Transcript.tokens) upper)

/-- The local sourced_books of load_data after punctuation removal: all
reference documents appended, uppercased, then filtered by the negation of
the punctuation predicate. -/
def sourced_books_of (fs : FileSys) (upper : Token → Token) (isPunct : Token → Bool)
    (batch_cuts : List MonoCut) : SourcedText :=
  filter_texts
    (append_texts (texts_to_sourced_texts ((loadBooks fs batch_cuts).map TextSource.tokens) upper))
    (fun c => ! isPunct c)

/-- The local sourced_text of load_data: queries first, then references. -/
def sourced_text_of (fs : FileSys) (upper : Token → Token) (isPunct : Token → Bool)
    (batch_cuts : List MonoCut) : SourcedText :=
  append_texts [sourced_transcripts_of fs upper batch_cuts,
                sourced_books_of fs upper isPunct batch_cuts]

/-- load_data.  The value .ok none models the empty dict returned when no
transcript was collected; .error models the assert on the token-count
invariant firing.  The punctuation predicate isPunct stands for the
library's is_punctuation; the filter uses its negation as in the source. -/
def load_data (fs : FileSys) (upper : Token → Token) (isPunct : Token → Bool)
    (batch_cuts : List MonoCut) : Except String (Option LoadResult) :=
  let acc := loadAcc fs batch_cuts
  if acc.transcripts = [] then .ok none
  else
    let sourced_text := sourced_text_of fs upper isPunct batch_cuts
    if acc.num_query_tokens = sourced_text.doc_splits acc.transcripts.length then
      .ok (some ⟨acc.num_query_tokens, acc.transcripts_cut_index, sourced_text⟩)
    else .error "num_query_tokens mismatch with doc_splits at the query boundary"

/-- The transcript contributed by one supervision, if any: the body of the
supervision loop as a per-supervision contribution. -/
def supTranscript (sup : Supervision) : Option Transcript :=
  if sup.alignment.map AliItem.symbol = [] then none
  else some ⟨sup.id, sup.alignment.map AliItem.symbol, sup.alignment.map AliItem.start⟩

/-- The transcripts contributed by one cut: none when its book file is
missing, else one per supervision with a non-empty alignment. -/
def cutTranscripts (fs : FileSys) (cut : MonoCut) : List Transcript :=
  if fs.isfile cut.text_path then cut.supervisions.filterMap supTranscript else []

/-- One entry of an alignment trace (docstring of align in the source):
reference token, hypothesis token, their local positions, and the
hypothesis token's timestamp. -/
structure AlignItem where
  ref : Token
  hyp : Token
  ref_pos : Nat
  hyp_pos : Nat
  hyp_time : Int
deriving DecidableEq

/-- One alignment as returned by align: the (query_start, target_start)
anchor pair and the ordered alignment items. -/
structure Alignment where
  query_start : Nat
  target_start : Nat
  items : List AlignItem
deriving DecidableEq

/-- One segment dict as returned by split (docstring of split in the
source). -/
structure Seg where
  begin_byte : Nat
  end_byte : Nat
  start_time : Int
  duration : Int
  hyp : String
  ref : String
  pre_ref : String
  pre_hyp : String
  post_ref : String
  post_hyp : String
deriving DecidableEq

instance : Inhabited Seg := ⟨⟨0, 0, 0, 0, "", "", "", "", "", ""⟩⟩

/-- The SupervisionSegment synthesized by write for one segment. -/
structure SupervisionSegment where
  id : String
  channel : Nat
  language : String
  speaker : String
  recording_id : String
  start : Int
  duration : Int
  texts : List String
  pre_texts : List String
  post_texts : List String
  begin_byte : Nat
  end_byte : Nat
deriving DecidableEq

instance : Inhabited SupervisionSegment :=
  ⟨⟨"", 0, "", "", "", 0, 0, [], [], [], 0, 0⟩⟩

/-- The MonoCut record synthesized by write for one segment. -/
structure Record where
  id : String
  start : Int
  duration : Int
  channel : Nat
  supervisions : List SupervisionSegment
  recording_id : String
  text_path : String
deriving DecidableEq

/-- The SupervisionSegment built in the inner loop of write, field by field
as in the source; in particular post_texts repeats seg.post_ref. -/
def mkSupervision (id : String) (c : MonoCut) (supIdx : Nat) (seg : Seg) :
    SupervisionSegment :=
  let sup := c.supervisions.getD supIdx default
  { id := id
    channel := sup.channel
    language := sup.language
    speaker := sup.speaker
    recording_id := c.recording_id
    start := 0
    duration := seg.duration
    texts := [seg.ref, seg.hyp]
    pre_texts := [seg.pre_ref, seg.pre_hyp]
    post_texts := [seg.post_ref, seg.post_ref]
    begin_byte := seg.begin_byte
    end_byte := seg.end_byte }

/-- The MonoCut built in the inner loop of write. -/
def mkRecord (id : String) (c : MonoCut) (supIdx : Nat) (seg : Seg) : Record :=
  { id := id
    start := seg.start_time
    duration := seg.duration
    channel := c.channel
    supervisions := [mkSupervision id c supIdx seg]
    recording_id := c.recording_id
    text_path := c.text_path }

/-- Incrementing the per-id counter at one key. -/
def bump (ctr : String → Nat) (s : String) : String → Nat :=
  fun q => if q = s then ctr s + 1 else ctr q

/-- The segment loop of write for one result item: the counter dict
cut_segment_index is modelled as a total function defaulting to zero. -/
def writeSegs (c : MonoCut) (supIdx : Nat) :
    (String → Nat) → List Seg → List Record × (String → Nat)
  | ctr, [] => ([], ctr)
  | ctr, seg :: rest =>
    let id := c.id ++ "_" ++ toString (ctr c.id)
    let r := writeSegs c supIdx (bump ctr c.id) rest
    (mkRecord id c supIdx seg :: r.1, r.2)

/-- The outer loop of write over the result items, threading the counter. -/
def writeItems (cuts : List MonoCut) :
    (String → Nat) → List ((Nat × Nat) × List Seg) → List Record
  | _, [] => []
  | ctr, item :: rest =>
    let c := cuts.getD item.1.1 default
    let r := writeSegs c item.1.2 ctr item.2
    r.1 ++ writeItems cuts r.2 rest

/-- write: the list of cuts appended to the output stream, in write order. -/
def write (batch_cuts : List MonoCut) (results : List ((Nat × Nat) × List Seg)) :
    List Record :=
  writeItems batch_cuts (fun _ => 0) results

/-- The outcome of process_one_batch: which stages ran and what was
written.  The align and split stages are recorded because the source
short-circuits before them on empty inputs. -/
structure BatchResult where
  ranAlign : Bool
  ranSplit : Bool
  written : List Record
deriving DecidableEq

/-- process_one_batch.  The alignment and splitting algorithms live in the
textsearch library; modelled from the spec as function parameters (the
drivers delegate to an external approximate-matching algorithm and a
segmentation algorithm, deterministic given deterministic scheduling). -/
def process_one_batch (fs : FileSys) (upper : Token → Token) (isPunct : Token → Bool)
    (alignFn : Nat → SourcedText → List Alignment)
    (splitFn : SourcedText → List Alignment → List (Nat × Nat) → List ((Nat × Nat) × List Seg))
    (batch_cuts : List MonoCut) : Except String BatchResult :=
  match load_data fs upper isPunct batch_cuts with
  | .error e => .error e
  | .ok none => .ok ⟨false, false, []⟩
  | .ok (some raw) =>
    let aligned_data := alignFn raw.num_query_tokens raw.sourced_text
    if aligned_data.length = 0 then .ok ⟨true, false, []⟩
    else
      let splited_data := splitFn raw.sourced_text aligned_data raw.cut_indexes
      if splited_data.length = 0 then .ok ⟨true, true, []⟩
      else .ok ⟨true, true, write batch_cuts splited_data⟩

/-- The batching loop of main: the accumulator batch_cuts and the stream of
cuts still to come; each emitted list is one call to process_one_batch. -/
def mainLoop (batch_size : Nat) (batch_cuts : List MonoCut) :
    List MonoCut → List (List MonoCut)
  | [] => if batch_cuts.length ≠ 0 then [batch_cuts] else []
  | cut :: rest =>
    if batch_cuts.length < batch_size then
      mainLoop batch_size (batch_cuts ++ [cut]) rest
    else
      batch_cuts :: mainLoop batch_size [] rest

/-- The batches processed by main over a whole input stream. -/
def mainBatches (batch_size : Nat) (stream : List MonoCut) : List (List MonoCut) :=
  mainLoop batch_size [] stream

/-- The production-order sequence of source-cut ids of a result list: one
entry per segment, carrying the id of the cut the segment came from, read
off exactly as write reads it (batch_cuts at the item's cut index). -/
def prodSrcIds (cuts : List MonoCut) (results : List ((Nat × Nat) × List Seg)) :
    List String :=
  results.flatMap (fun item => item.2.map (fun _ => (cuts.getD item.1.1 default).id))

/-- Specification-side id assignment (spec section 4.4): one counter per
original item id, starting at 0 and increasing by 1 in production order;
each occurrence of id s receives s, an underscore, and the counter value. -/
def enumIds (ctr : String → Nat) : List String → List String
  | [] => []
  | s :: rest => (s ++ "_" ++ toString (ctr s)) :: enumIds (bump ctr s) rest

/-- The counter after consuming a sequence of ids. -/
def ctrAfter (ctr : String → Nat) (l : List String) : String → Nat :=
  fun q => ctr q + l.count q

/-- Decimal digit list of a natural number, most significant first; a
fuel-free counterpart of the toDigitsCore loop behind Nat.repr. -/
def decRepr (n : Nat) : List Char :=
  if h : n / 10 = 0 then [Nat.digitChar (n % 10)]
  else decRepr (n / 10) ++ [Nat.digitChar (n % 10)]
decreasing_by
  exact Nat.div_lt_self (Nat.pos_of_ne_zero fun h0 => h (by simp [h0])) (by decide)

/-- Numeric value of a decimal digit string, used to invert decRepr. -/
def digitsVal (l : List Char) : Nat :=
  l.foldl (fun acc c => acc * 10 + (c.toNat - 48)) 0

section Witness

/-- Concrete inputs used to instantiate the theorems below. -/
def wFs : FileSys := ⟨fun _ => true, fun _ => [66, 67]⟩

def wFsNone : FileSys := ⟨fun _ => false, fun _ => []⟩

def wFsB : FileSys := ⟨fun p => p == "book0", fun _ => [66, 67]⟩

def wSup : Supervision := ⟨"s0", 0, "en", "spk", [⟨65, 0⟩]⟩

def wCut : MonoCut := ⟨"c0", 0, "rec0", "book0", [wSup]⟩

def wCutMiss : MonoCut := ⟨"c1", 0, "rec1", "missing", [wSup]⟩

def wRes : LoadResult := ⟨1, [(0, 0)], ⟨[[65], [66, 67]]⟩⟩

def wSeg : Seg := ⟨3, 8, 0, 5, "H", "R", "PR0", "PH0", "POR", "POH"⟩

def wResults : List ((Nat × Nat) × List Seg) := [((0, 0), [wSeg])]

def wCutA : MonoCut := ⟨"a", 0, "ra", "pa", []⟩

def wCutB : MonoCut := ⟨"b", 0, "rb", "pb", []⟩

def wCutC : MonoCut := ⟨"c", 0, "rc", "pc", []⟩

def wRec : Record := mkRecord ("c0" ++ "_" ++ toString 0) wCut 0 wSeg

end Witness

/-! Decomposition lemmas for the cut loop of load_data. -/

theorem processSup_transcripts (i j : Nat) (sup : Supervision) (acc : LoadAcc) :
    (processSup i j sup acc).transcripts
      = acc.transcripts ++ (supTranscript sup).toList := by
  simp only [processSup, supTranscript]
  by_cases h : sup.alignment.map AliItem.symbol = [] <;> simp [h]

theorem processSup_book_paths (i j : Nat) (sup : Supervision) (acc : LoadAcc) :
    (processSup i j sup acc).book_paths = acc.book_paths := by
  simp only [processSup]
  by_cases h : sup.alignment.map AliItem.symbol = [] <;> simp [h]

theorem processSup_num (i j : Nat) (sup : Supervision) (acc : LoadAcc) :
    (processSup i j sup acc).num_query_tokens
      = acc.num_query_tokens
        + ((supTranscript sup).toList.map (fun t => t.tokens.length)).sum := by
  simp only [processSup, supTranscript]
  by_cases h : sup.alignment.map AliItem.symbol = [] <;> simp [h]

theorem processSup_idx_len (i j : Nat) (sup : Supervision) (acc : LoadAcc) :
    (processSup i j sup acc).transcripts_cut_index.length
      = acc.transcripts_cut_index.length + (supTranscript sup).toList.length := by
  simp only [processSup, supTranscript]
  by_cases h : sup.alignment.map AliItem.symbol = [] <;> simp [h]

theorem processSups_transcripts (i : Nat) (sups : List Supervision) :
    ∀ (j : Nat) (acc : LoadAcc),
    (processSups i j sups acc).transcripts
      = acc.transcripts ++ sups.filterMap supTranscript := by
  induction sups with
  | nil => intro j acc; simp [processSups]
  | cons s rest ih =>
    intro j acc
    simp only [processSups]
    rw [ih, processSup_transcripts]
    cases h : supTranscript s <;> simp [h, List.filterMap_cons]

theorem processSups_book_paths (i : Nat) (sups : List Supervision) :
    ∀ (j : Nat) (acc : LoadAcc),
    (processSups i j sups acc).book_paths = acc.book_paths := by
  induction sups with
  | nil => intro j acc; simp [processSups]
  | cons s rest ih =>
    intro j acc
    simp only [processSups]
    rw [ih, processSup_book_paths]

theorem processSups_num (i : Nat) (sups : List Supervision) :
    ∀ (j : Nat) (acc : LoadAcc),
    (processSups i j sups acc).num_query_tokens
      = acc.num_query_tokens
        + ((sups.filterMap supTranscript).map (fun t => t.tokens.length)).sum := by
  induction sups with
  | nil => intro j acc; simp [processSups]
  | cons s rest ih =>
    intro j acc
    simp only [processSups]
    rw [ih, processSup_num]
    cases h : supTranscript s <;> simp [h, List.filterMap_cons, Nat.add_assoc]

theorem processSups_idx_len (i : Nat) (sups : List Supervision) :
    ∀ (j : Nat) (acc : LoadAcc),
    (processSups i j sups acc).transcripts_cut_index.length
      = acc.transcripts_cut_index.length + (sups.filterMap supTranscript).length := by
  induction sups with
  | nil => intro j acc; simp [processSups]
  | cons s rest ih =>
    intro j acc
    simp only [processSups]
    rw [ih, processSup_idx_len]
    cases h : supTranscript s <;> simp [h, List.filterMap_cons] <;> omega

theorem processCut_transcripts (fs : FileSys) (i : Nat) (cut : MonoCut) (acc : LoadAcc) :
    (processCut fs i cut acc).transcripts = acc.transcripts ++ cutTranscripts fs cut := by
  simp only [processCut, cutTranscripts]
  by_cases h : fs.isfile cut.text_path <;> simp [h, processSups_transcripts]

theorem processCut_book_paths (fs : FileSys) (i : Nat) (cut : MonoCut) (acc : LoadAcc) :
    (processCut fs i cut acc).book_paths
      = if fs.isfile cut.text_path then insertPath acc.book_paths cut.text_path
        else acc.book_paths := by
  simp only [processCut]
  by_cases h : fs.isfile cut.text_path <;> simp [h, processSups_book_paths]

theorem processCut_num (fs : FileSys) (i : Nat) (cut : MonoCut) (acc : LoadAcc) :
    (processCut fs i cut acc).num_query_tokens
      = acc.num_query_tokens
        + ((cutTranscripts fs cut).map (fun t => t.tokens.length)).sum := by
  simp only [processCut, cutTranscripts]
  by_cases h : fs.isfile cut.text_path <;> simp [h, processSups_num]

theorem processCut_idx_len (fs : FileSys) (i : Nat) (cut : MonoCut) (acc : LoadAcc) :
    (processCut fs i cut acc).transcripts_cut_index.length
      = acc.transcripts_cut_index.length + (cutTranscripts fs cut).length := by
  simp only [processCut, cutTranscripts]
  by_cases h : fs.isfile cut.text_path <;> simp [h, processSups_idx_len]

theorem collectCuts_transcripts (fs : FileSys) (cuts : List MonoCut) :
    ∀ (i : Nat) (acc : LoadAcc),
    (collectCuts fs i cuts acc).transcripts
      = acc.transcripts ++ cuts.flatMap (cutTranscripts fs) := by
  induction cuts with
  | nil => intro i acc; simp [collectCuts]
  | cons c rest ih =>
    intro i acc
    simp only [collectCuts]
    rw [ih, processCut_transcripts]
    simp

theorem collectCuts_book_paths (fs : FileSys) (cuts : List MonoCut) :
    ∀ (i : Nat) (acc : LoadAcc),
    (collectCuts fs i cuts acc).book_paths
      = ((cuts.filter (fun c => fs.isfile c.text_path)).map MonoCut.text_path).foldl
          insertPath acc.book_paths := by
  induction cuts with
  | nil => intro i acc; simp [collectCuts]
  | cons c rest ih =>
    intro i acc
    simp only [collectCuts]
    rw [ih, processCut_book_paths]
    by_cases h : fs.isfile c.text_path <;> simp [h]

theorem collectCuts_num (fs : FileSys) (cuts : List MonoCut) :
    ∀ (i : Nat) (acc : LoadAcc),
    (collectCuts fs i cuts acc).num_query_tokens
      = acc.num_query_tokens
        + ((cuts.flatMap (cutTranscripts fs)).map (fun t => t.tokens.length)).sum := by
  induction cuts with
  | nil => intro i acc; simp [collectCuts]
  | cons c rest ih =>
    intro i acc
    simp only [collectCuts]
    rw [ih, processCut_num]
    simp [Nat.add_assoc]

theorem collectCuts_idx_len (fs : FileSys) (cuts : List MonoCut) :
    ∀ (i : Nat) (acc : LoadAcc),
    (collectCuts fs i cuts acc).transcripts_cut_index.length
      = acc.transcripts_cut_index.length + (cuts.flatMap (cutTranscripts fs)).length := by
  induction cuts with
  | nil => intro i acc; simp [collectCuts]
  | cons c rest ih =>
    intro i acc
    simp only [collectCuts]
    rw [ih, processCut_idx_len]
    simp [Nat.add_assoc]

theorem loadAcc_transcripts (fs : FileSys) (cuts : List MonoCut) :
    (loadAcc fs cuts).transcripts = cuts.flatMap (cutTranscripts fs) := by
  simp [loadAcc, collectCuts_transcripts, initAcc]

theorem loadAcc_book_paths (fs : FileSys) (cuts : List MonoCut) :
    (loadAcc fs cuts).book_paths
      = ((cuts.filter (fun c => fs.isfile c.text_path)).map MonoCut.text_path).foldl
          insertPath [] := by
  simp [loadAcc, collectCuts_book_paths, initAcc]

theorem loadAcc_num (fs : FileSys) (cuts : List MonoCut) :
    (loadAcc fs cuts).num_query_tokens
      = ((cuts.flatMap (cutTranscripts fs)).map (fun t => t.tokens.length)).sum := by
  simp [loadAcc, collectCuts_num, initAcc]

theorem loadAcc_idx_len (fs : FileSys) (cuts : List MonoCut) :
    (loadAcc fs cuts).transcripts_cut_index.length
      = (loadAcc fs cuts).transcripts.length := by
  simp [loadAcc, collectCuts_idx_len, collectCuts_transcripts, initAcc]

/-! The shape of the sourced text and the token-count invariant. -/

theorem flatten_map_singleton {α β : Type} (f : α → β) (l : List α) :
    (l.map (fun x => [f x])).flatten = l.map f := by
  induction l with
  | nil => rfl
  | cons a t ih => simp [ih]

theorem sourced_text_of_docs (fs : FileSys) (u : Token → Token) (ip : Token → Bool)
    (cuts : List MonoCut) :
    (sourced_text_of fs u ip cuts).docs
      = (loadAcc fs cuts).transcripts.map (fun t => t.tokens.map u)
        ++ (loadBooks fs cuts).map (fun b => (b.tokens.map u).filter (fun c => ! ip c)) := by
  simp [sourced_text_of, sourced_transcripts_of, sourced_books_of, append_texts,
        texts_to_sourced_texts, filter_texts, List.map_map, Function.comp_def,
        flatten_map_singleton]

theorem load_invariant (fs : FileSys) (u : Token → Token) (ip : Token → Bool)
    (cuts : List MonoCut) :
    (loadAcc fs cuts).num_query_tokens
      = (sourced_text_of fs u ip cuts).doc_splits (loadAcc fs cuts).transcripts.length := by
  rw [SourcedText.doc_splits, sourced_text_of_docs]
  rw [show (loadAcc fs cuts).transcripts.length
        = ((loadAcc fs cuts).transcripts.map (fun t => t.tokens.map u)).length by simp]
  rw [List.take_left]
  rw [loadAcc_num, loadAcc_transcripts]
  simp [List.map_map, Function.comp_def, List.length_map]

theorem load_data_eq (fs : FileSys) (u : Token → Token) (ip : Token → Bool)
    (cuts : List MonoCut) :
    load_data fs u ip cuts
      = if (loadAcc fs cuts).transcripts = [] then .ok none
        else .ok (some ⟨(loadAcc fs cuts).num_query_tokens,
                        (loadAcc fs cuts).transcripts_cut_index,
                        sourced_text_of fs u ip cuts⟩) := by
  simp only [load_data]
  by_cases h : (loadAcc fs cuts).transcripts = [] <;>
    simp [h, ← load_invariant fs u ip cuts]

theorem load_data_ne_error (fs : FileSys) (u : Token → Token) (ip : Token → Bool)
    (cuts : List MonoCut) (msg : String) :
    load_data fs u ip cuts ≠ .error msg := by
  rw [load_data_eq]
  by_cases h : (loadAcc fs cuts).transcripts = [] <;> simp [h]

theorem supTranscript_eq_none (sup : Supervision) :
    supTranscript sup = none ↔ sup.alignment = [] := by
  simp [supTranscript]

theorem cutTranscripts_eq_nil (fs : FileSys) (c : MonoCut) :
    cutTranscripts fs c = []
      ↔ (fs.isfile c.text_path = false ∨ ∀ s ∈ c.supervisions, s.alignment = []) := by
  by_cases h : fs.isfile c.text_path <;>
    simp [cutTranscripts, h, List.filterMap_eq_nil_iff, supTranscript_eq_none]

theorem load_data_some (fs : FileSys) (u : Token → Token) (ip : Token → Bool)
    (cuts : List MonoCut) (r : LoadResult)
    (h : load_data fs u ip cuts = .ok (some r)) :
    r = ⟨(loadAcc fs cuts).num_query_tokens,
         (loadAcc fs cuts).transcripts_cut_index,
         sourced_text_of fs u ip cuts⟩ := by
  rw [load_data_eq] at h
  by_cases hc : (loadAcc fs cuts).transcripts = [] <;> simp [hc] at h
  exact h.symm

/-- C3: on every batch where load_data returns a non-empty result, the total
query-token count equals the SourcedText boundary-table value at the number
of query documents; a violation would be an error result, and load_data in
fact never produces the error. -/
theorem C3_token_count_invariant (fs : FileSys) (u : Token → Token) (ip : Token → Bool)
    (cuts : List MonoCut) :
    (∀ r : LoadResult, load_data fs u ip cuts = .ok (some r) →
        r.num_query_tokens = r.sourced_text.doc_splits r.cut_indexes.length)
    ∧ ∀ msg, load_data fs u ip cuts ≠ .error msg := by
  constructor
  · intro r hr
    rw [load_data_some fs u ip cuts r hr]
    show (loadAcc fs cuts).num_query_tokens
      = (sourced_text_of fs u ip cuts).doc_splits (loadAcc fs cuts).transcripts_cut_index.length
    rw [loadAcc_idx_len]
    exact load_invariant fs u ip cuts
  · intro msg
    exact load_data_ne_error fs u ip cuts msg

/-- Witness for C3 at a concrete one-cut batch. -/
theorem C3_witness :
    wRes.num_query_tokens = wRes.sourced_text.doc_splits wRes.cut_indexes.length :=
  (C3_token_count_invariant wFs (fun t => t) (fun _ => false) [wCut]).1 wRes (by rfl)

/-- C4: load_data returns the empty dict exactly when the batch yields zero
usable query documents (each item has a missing reference file or only
supervisions with empty alignments), and on the empty dict
process_one_batch short-circuits: align and split never run and nothing is
written. -/
theorem C4_empty_short_circuit (fs : FileSys) (u : Token → Token) (ip : Token → Bool)
    (aF : Nat → SourcedText → List Alignment)
    (sF : SourcedText → List Alignment → List (Nat × Nat) → List ((Nat × Nat) × List Seg))
    (cuts : List MonoCut) :
    (load_data fs u ip cuts = .ok none
       ↔ ∀ c ∈ cuts, fs.isfile c.text_path = false ∨ ∀ s ∈ c.supervisions, s.alignment = [])
    ∧ (load_data fs u ip cuts = .ok none →
        process_one_batch fs u ip aF sF cuts = .ok ⟨false, false, []⟩) := by
  have hiff : load_data fs u ip cuts = .ok none ↔ (loadAcc fs cuts).transcripts = [] := by
    rw [load_data_eq]
    by_cases h : (loadAcc fs cuts).transcripts = [] <;> simp [h]
  constructor
  · rw [hiff, loadAcc_transcripts, List.flatMap_eq_nil_iff]
    simp only [cutTranscripts_eq_nil]
  · intro h
    simp only [process_one_batch, h]

/-- Witness for C4 at a batch whose only cut has a missing book file. -/
theorem C4_witness :
    process_one_batch wFsNone (fun t => t) (fun _ => false) (fun _ _ => [])
      (fun _ _ _ => []) [wCut] = .ok ⟨false, false, []⟩ :=
  (C4_empty_short_circuit wFsNone (fun t => t) (fun _ => false) (fun _ _ => [])
      (fun _ _ _ => []) [wCut]).2 (by rfl)

theorem collectCuts_append (fs : FileSys) (l1 l2 : List MonoCut) :
    ∀ (i : Nat) (acc : LoadAcc),
    collectCuts fs i (l1 ++ l2) acc
      = collectCuts fs (i + l1.length) l2 (collectCuts fs i l1 acc) := by
  induction l1 with
  | nil => intro i acc; simp [collectCuts]
  | cons c rest ih =>
    intro i acc
    simp only [List.cons_append, List.append_eq, collectCuts, List.length_cons]
    rw [ih]
    have e : i + 1 + rest.length = i + (rest.length + 1) := by omega
    rw [e]

theorem processCut_skip (fs : FileSys) (i : Nat) (c : MonoCut) (acc : LoadAcc)
    (h : fs.isfile c.text_path = false) : processCut fs i c acc = acc := by
  simp [processCut, h]

/-- C5: an item whose reference file is missing contributes nothing: the cut
loop over the whole batch equals the loop over the remaining items, with
the original enumeration indices preserved, and load_data never raises an
error on such a batch. -/
theorem C5_missing_file_skipped (fs : FileSys) (u : Token → Token) (ip : Token → Bool)
    (pre post : List MonoCut) (c : MonoCut)
    (h : fs.isfile c.text_path = false) :
    collectCuts fs 0 (pre ++ c :: post) initAcc
      = collectCuts fs (pre.length + 1) post (collectCuts fs 0 pre initAcc)
    ∧ ∀ msg, load_data fs u ip (pre ++ c :: post) ≠ .error msg := by
  constructor
  · rw [collectCuts_append]
    simp only [collectCuts]
    rw [processCut_skip fs (0 + pre.length) c _ h]
    simp
  · intro msg
    exact load_data_ne_error fs u ip (pre ++ c :: post) msg

/-- Witness for C5: the middle cut's book path does not exist. -/
theorem C5_witness :
    collectCuts wFsB 0 ([wCut] ++ wCutMiss :: [wCut]) initAcc
      = collectCuts wFsB (([wCut] : List MonoCut).length + 1) [wCut]
          (collectCuts wFsB 0 [wCut] initAcc)
    ∧ ∀ msg, load_data wFsB (fun t => t) (fun _ => false)
        ([wCut] ++ wCutMiss :: [wCut]) ≠ .error msg :=
  C5_missing_file_skipped wFsB (fun t => t) (fun _ => false) [wCut] [wCut] wCutMiss
    (by rfl)

/-- C7: the punctuation filter is applied to the reference documents only:
the docs of the resulting SourcedText are the unfiltered (uppercased)
transcripts followed by the filtered books, so the query portion is exactly
the unfiltered concatenation of the transcripts. -/
theorem C7_filter_only_books (fs : FileSys) (u : Token → Token) (ip : Token → Bool)
    (cuts : List MonoCut) (r : LoadResult)
    (h : load_data fs u ip cuts = .ok (some r)) :
    r.sourced_text.docs
      = (loadAcc fs cuts).transcripts.map (fun t => t.tokens.map u)
        ++ (loadBooks fs cuts).map (fun b => (b.tokens.map u).filter (fun c => ! ip c))
    ∧ r.sourced_text.docs.take (loadAcc fs cuts).transcripts.length
      = (loadAcc fs cuts).transcripts.map (fun t => t.tokens.map u) := by
  have hst : r.sourced_text = sourced_text_of fs u ip cuts := by
    rw [load_data_some fs u ip cuts r h]
  rw [hst, sourced_text_of_docs]
  refine ⟨rfl, ?_⟩
  rw [show (loadAcc fs cuts).transcripts.length
        = ((loadAcc fs cuts).transcripts.map (fun t => t.tokens.map u)).length by simp]
  rw [List.take_left]

/-- Witness for C7 at a concrete one-cut batch. -/
theorem C7_witness :
    wRes.sourced_text.docs
      = (loadAcc wFs [wCut]).transcripts.map (fun t => t.tokens.map (fun t => t))
        ++ (loadBooks wFs [wCut]).map
            (fun b => (b.tokens.map (fun t => t)).filter (fun c => ! (fun _ => false) c))
    ∧ wRes.sourced_text.docs.take (loadAcc wFs [wCut]).transcripts.length
      = (loadAcc wFs [wCut]).transcripts.map (fun t => t.tokens.map (fun t => t)) :=
  C7_filter_only_books wFs (fun t => t) (fun _ => false) [wCut] wRes (by rfl)

theorem insertPath_nodup (s : List String) (p : String) (h : s.Nodup) :
    (insertPath s p).Nodup := by
  by_cases hp : p ∈ s <;> simp [insertPath, hp, h, List.nodup_append]

theorem mem_insertPath (s : List String) (p q : String) :
    q ∈ insertPath s p ↔ q ∈ s ∨ q = p := by
  by_cases hp : p ∈ s
  · simp only [insertPath, if_pos hp]
    exact ⟨Or.inl, fun h => h.elim id fun e => e ▸ hp⟩
  · simp [insertPath, hp]

theorem foldl_insertPath_nodup (l : List String) :
    ∀ s : List String, s.Nodup → (l.foldl insertPath s).Nodup := by
  induction l with
  | nil => intro s h; exact h
  | cons a t ih => intro s h; exact ih _ (insertPath_nodup s a h)

theorem mem_foldl_insertPath (l : List String) :
    ∀ (s : List String) (q : String), q ∈ l.foldl insertPath s ↔ q ∈ s ∨ q ∈ l := by
  induction l with
  | nil => intro s q; simp
  | cons a t ih =>
    intro s q
    simp only [List.foldl_cons, ih, mem_insertPath, List.mem_cons]
    tauto

/-- C6: within one batch the deduplicated book-path list has no duplicates
and contains exactly the paths cited by items with a readable reference
file; the books are loaded by mapping once over that list, so each unique
path is opened and tokenized exactly once, into one reference document. -/
theorem C6_unique_book_loads (fs : FileSys) (cuts : List MonoCut) :
    (loadAcc fs cuts).book_paths.Nodup
    ∧ (∀ p, p ∈ (loadAcc fs cuts).book_paths
        ↔ ∃ c ∈ cuts, fs.isfile c.text_path = true ∧ c.text_path = p)
    ∧ loadBooks fs cuts
        = (loadAcc fs cuts).book_paths.map (fun p => ⟨p, fs.content p⟩) := by
  refine ⟨?_, ?_, rfl⟩
  · rw [loadAcc_book_paths]
    exact foldl_insertPath_nodup _ [] List.nodup_nil
  · intro p
    rw [loadAcc_book_paths, mem_foldl_insertPath]
    simp only [List.not_mem_nil, false_or, List.mem_map, List.mem_filter]
    constructor
    · rintro ⟨c, ⟨hc, hf⟩, hp⟩
      exact ⟨c, hc, hf, hp⟩
    · rintro ⟨c, hc, hf, hp⟩
      exact ⟨c, ⟨hc, hf⟩, hp⟩

/-- C1 evidence: with batch_size 1 and a three-item stream, the batching
loop of main emits the batches [[a], [c]]; item b is consumed at a batch
boundary without being appended, so it lands in no batch. -/
theorem C1_dropped_item :
    mainBatches 1 [wCutA, wCutB, wCutC] = [[wCutA], [wCutC]]
    ∧ wCutB ∉ (mainBatches 1 [wCutA, wCutB, wCutC]).flatten := by
  decide

/-- C2 evidence: the record written for a concrete segment carries
post_texts equal to [post_ref, post_ref], although the segment's post_hyp
differs from its post_ref. -/
theorem C2_post_texts_pair :
    (write [wCut] wResults).map (fun r => r.supervisions.map (fun s => s.post_texts))
      = [[[wSeg.post_ref, wSeg.post_ref]]]
    ∧ wSeg.post_hyp ≠ wSeg.post_ref := by
  decide

/-- C8: determinism of the batch computation as a two-run equality: with the
same filesystem, configuration and (deterministically scheduled) alignment
and splitting functions, equal input batches produce equal results. -/
theorem C8_two_run_equality (fs : FileSys) (u : Token → Token) (ip : Token → Bool)
    (aF : Nat → SourcedText → List Alignment)
    (sF : SourcedText → List Alignment → List (Nat × Nat) → List ((Nat × Nat) × List Seg))
    (cuts1 cuts2 : List MonoCut) (h : cuts1 = cuts2) :
    process_one_batch fs u ip aF sF cuts1 = process_one_batch fs u ip aF sF cuts2 := by
  rw [h]

/-- Witness for C8: two runs on the same concrete batch. -/
theorem C8_witness :
    process_one_batch wFs (fun t => t) (fun _ => false) (fun _ _ => [])
        (fun _ _ _ => []) [wCut]
      = process_one_batch wFs (fun t => t) (fun _ => false) (fun _ _ => [])
          (fun _ _ _ => []) [wCut] :=
  C8_two_run_equality wFs (fun t => t) (fun _ => false) (fun _ _ => [])
    (fun _ _ _ => []) [wCut] [wCut] rfl

/-! Injectivity of the decimal id suffix. -/

theorem digitChar_val (m : Nat) (h : m < 10) : (Nat.digitChar m).toNat - 48 = m := by
  interval_cases m <;> decide

theorem digitsVal_append_digit (l : List Char) (c : Char) :
    digitsVal (l ++ [c]) = digitsVal l * 10 + (c.toNat - 48) := by
  simp [digitsVal, List.foldl_append]

theorem decRepr_low (n : Nat) (h : n / 10 = 0) :
    decRepr n = [Nat.digitChar (n % 10)] := by
  rw [decRepr]
  rw [dif_pos h]

theorem decRepr_high (n : Nat) (h : ¬ n / 10 = 0) :
    decRepr n = decRepr (n / 10) ++ [Nat.digitChar (n % 10)] := by
  rw [decRepr]
  rw [dif_neg h]

theorem digitsVal_decRepr (n : Nat) : digitsVal (decRepr n) = n := by
  induction n using Nat.strong_induction_on with
  | _ n ih =>
    by_cases h : n / 10 = 0
    · rw [decRepr_low n h]
      have hn : n < 10 := by omega
      simp [digitsVal, digitChar_val (n % 10) (Nat.mod_lt n (by decide))]
      omega
    · rw [decRepr_high n h]
      rw [digitsVal_append_digit, ih (n / 10) (by omega),
          digitChar_val (n % 10) (Nat.mod_lt n (by decide))]
      omega

theorem decRepr_injective : Function.Injective decRepr := by
  intro m n h
  have h2 := congrArg digitsVal h
  rwa [digitsVal_decRepr, digitsVal_decRepr] at h2

theorem toDigitsCore_eq (fuel : Nat) :
    ∀ (n : Nat) (ds : List Char), n < fuel →
      Nat.toDigitsCore 10 fuel n ds = decRepr n ++ ds := by
  induction fuel with
  | zero => intro n ds h; omega
  | succ f ih =>
    intro n ds h
    simp only [Nat.toDigitsCore]
    by_cases h0 : n / 10 = 0
    · rw [if_pos h0, decRepr_low n h0]
      rfl
    · rw [if_neg h0, ih (n / 10) _ (by omega), decRepr_high n h0]
      simp

theorem repr_eq_decRepr (n : Nat) : Nat.repr n = (decRepr n).asString := by
  rw [Nat.repr, Nat.toDigits, toDigitsCore_eq (n + 1) n [] (Nat.lt_succ_self n),
      List.append_nil]

theorem toString_nat_data (n : Nat) : (toString n).data = decRepr n := by
  show (Nat.repr n).data = decRepr n
  rw [repr_eq_decRepr]
  rfl

theorem string_append_data (s t : String) : (s ++ t).data = s.data ++ t.data := by
  cases s; cases t; rfl

theorem idSuffix_injective (s : String) :
    Function.Injective (fun n : Nat => s ++ "_" ++ toString n) := by
  intro m n h
  simp only at h
  have hd := congrArg String.data h
  simp only [string_append_data] at hd
  have h2 := List.append_cancel_left hd
  rw [toString_nat_data, toString_nat_data] at h2
  exact decRepr_injective h2

theorem nodup_ids_range (s : String) (a k : Nat) :
    ((List.range' a k).map (fun n => s ++ "_" ++ toString n)).Nodup :=
  (List.nodup_range' a k).map (idSuffix_injective s)

/-! The id assignment performed by write. -/

theorem ctrAfter_nil (ctr : String → Nat) : ctrAfter ctr [] = ctr := by
  funext q
  simp [ctrAfter]

theorem ctrAfter_cons (ctr : String → Nat) (s : String) (l : List String) :
    ctrAfter (bump ctr s) l = ctrAfter ctr (s :: l) := by
  funext q
  by_cases h : q = s <;>
    simp [ctrAfter, bump, h, List.count_cons] <;> omega

theorem enumIds_append (l1 l2 : List String) :
    ∀ ctr, enumIds ctr (l1 ++ l2) = enumIds ctr l1 ++ enumIds (ctrAfter ctr l1) l2 := by
  induction l1 with
  | nil => intro ctr; simp [enumIds, ctrAfter_nil]
  | cons s t ih =>
    intro ctr
    simp only [List.cons_append, List.append_eq, enumIds, ih, ctrAfter_cons]

theorem writeSegs_fst_ids (c : MonoCut) (k : Nat) (segs : List Seg) :
    ∀ ctr, (writeSegs c k ctr segs).1.map Record.id
      = enumIds ctr (segs.map (fun _ => c.id)) := by
  induction segs with
  | nil => intro ctr; simp [writeSegs, enumIds]
  | cons seg rest ih =>
    intro ctr
    simp only [writeSegs, enumIds, List.map_cons]
    rw [← ih (bump ctr c.id)]
    simp [mkRecord]

theorem writeSegs_snd (c : MonoCut) (k : Nat) (segs : List Seg) :
    ∀ ctr, (writeSegs c k ctr segs).2 = ctrAfter ctr (segs.map (fun _ => c.id)) := by
  induction segs with
  | nil => intro ctr; simp [writeSegs, ctrAfter_nil]
  | cons seg rest ih =>
    intro ctr
    simp only [writeSegs, List.map_cons]
    rw [ih, ctrAfter_cons]

theorem prodSrcIds_cons (cuts : List MonoCut) (item : (Nat × Nat) × List Seg)
    (rest : List ((Nat × Nat) × List Seg)) :
    prodSrcIds cuts (item :: rest)
      = item.2.map (fun _ => (cuts.getD item.1.1 default).id) ++ prodSrcIds cuts rest := by
  simp [prodSrcIds]

theorem writeItems_ids (cuts : List MonoCut) (results : List ((Nat × Nat) × List Seg)) :
    ∀ ctr, (writeItems cuts ctr results).map Record.id
      = enumIds ctr (prodSrcIds cuts results) := by
  induction results with
  | nil => intro ctr; simp [writeItems, prodSrcIds, enumIds]
  | cons item rest ih =>
    intro ctr
    simp only [writeItems]
    rw [List.map_append, writeSegs_fst_ids, writeSegs_snd, ih, prodSrcIds_cons,
        enumIds_append]

theorem enumIds_proj (s : String) (l : List String) :
    ∀ ctr, (l.zip (enumIds ctr l)).filterMap
        (fun x => if x.1 = s then some x.2 else none)
      = (List.range' (ctr s) (l.count s)).map (fun n => s ++ "_" ++ toString n) := by
  induction l with
  | nil => intro ctr; simp [enumIds]
  | cons t rest ih =>
    intro ctr
    simp only [enumIds, List.zip_cons_cons, List.filterMap_cons]
    by_cases h : t = s
    · subst h
      rw [ih]
      have hb : bump ctr t t = ctr t + 1 := by simp [bump]
      have hc : List.count t (t :: rest) = List.count t rest + 1 := by
        simp [List.count_cons]
      rw [hb, hc, List.range'_succ, List.map_cons]
      simp
    · rw [ih]
      have hb : bump ctr t s = ctr s := by simp [bump, Ne.symm h]
      have hc : List.count s (t :: rest) = List.count s rest := by
        simp [List.count_cons, h]
      rw [hb, hc]
      simp [h]

/-- C9: write assigns record ids with one counter per original cut id: the
written id sequence equals the specification-side enumeration that numbers
each production-order occurrence of an id from 0 upward; restricted to any
single source id s, the record ids are s with suffixes 0, 1, 2, ... in
production order, and they are pairwise distinct. -/
theorem C9_sequential_ids (cuts : List MonoCut)
    (results : List ((Nat × Nat) × List Seg)) :
    (write cuts results).map Record.id = enumIds (fun _ => 0) (prodSrcIds cuts results)
    ∧ (∀ s, ((prodSrcIds cuts results).zip ((write cuts results).map Record.id)).filterMap
          (fun x => if x.1 = s then some x.2 else none)
        = (List.range ((prodSrcIds cuts results).count s)).map
            (fun n => s ++ "_" ++ toString n))
    ∧ ∀ s, (((prodSrcIds cuts results).zip ((write cuts results).map Record.id)).filterMap
          (fun x => if x.1 = s then some x.2 else none)).Nodup := by
  have h1 : (write cuts results).map Record.id
      = enumIds (fun _ => 0) (prodSrcIds cuts results) :=
    writeItems_ids cuts results _
  refine ⟨h1, fun s => ?_, fun s => ?_⟩
  · rw [h1, enumIds_proj, List.range_eq_range']
  · rw [h1, enumIds_proj]
    exact nodup_ids_range s 0 _

/-! The shape of the records synthesized by write. -/

theorem writeSegs_mem (c : MonoCut) (k : Nat) (segs : List Seg) :
    ∀ (ctr : String → Nat) (r : Record), r ∈ (writeSegs c k ctr segs).1 →
      ∃ seg ∈ segs, ∃ id, r = mkRecord id c k seg := by
  induction segs with
  | nil => intro ctr r hr; simp [writeSegs] at hr
  | cons seg rest ih =>
    intro ctr r hr
    simp only [writeSegs, List.mem_cons] at hr
    rcases hr with h | h
    · exact ⟨seg, List.mem_cons_self seg rest, _, h⟩
    · rcases ih (bump ctr c.id) r h with ⟨sg, hsg, id, he⟩
      exact ⟨sg, List.mem_cons_of_mem seg hsg, id, he⟩

theorem writeItems_mem (cuts : List MonoCut) (results : List ((Nat × Nat) × List Seg)) :
    ∀ (ctr : String → Nat) (r : Record), r ∈ writeItems cuts ctr results →
      ∃ item ∈ results, ∃ seg ∈ item.2, ∃ id,
        r = mkRecord id (cuts.getD item.1.1 default) item.1.2 seg := by
  induction results with
  | nil => intro ctr r hr; simp [writeItems] at hr
  | cons item rest ih =>
    intro ctr r hr
    simp only [writeItems, List.mem_append] at hr
    rcases hr with h | h
    · rcases writeSegs_mem _ _ _ _ r h with ⟨seg, hseg, id, he⟩
      exact ⟨item, List.mem_cons_self item rest, seg, hseg, id, he⟩
    · rcases ih _ r h with ⟨it, hit, seg, hseg, id, he⟩
      exact ⟨it, List.mem_cons_of_mem item hit, seg, hseg, id, he⟩

/-- C10: every record written is a cut holding exactly one supervision: the
supervision's id equals the cut's id, its start is 0 and its duration is
the cut's duration; the cut's start is the segment's audio start time, its
duration is the segment's duration, and it inherits the source item's
recording and channel. -/
theorem C10_record_shape (cuts : List MonoCut) (results : List ((Nat × Nat) × List Seg))
    (r : Record) (hr : r ∈ write cuts results) :
    (∃ sup, r.supervisions = [sup] ∧ sup.id = r.id ∧ sup.start = 0
       ∧ sup.duration = r.duration)
    ∧ ∃ item ∈ results, ∃ seg ∈ item.2,
        r.start = seg.start_time ∧ r.duration = seg.duration
        ∧ r.recording_id = (cuts.getD item.1.1 default).recording_id
        ∧ r.channel = (cuts.getD item.1.1 default).channel := by
  rcases writeItems_mem cuts results _ r hr with ⟨item, hit, seg, hseg, id, he⟩
  subst he
  exact ⟨⟨mkSupervision id (cuts.getD item.1.1 default) item.1.2 seg, rfl, rfl, rfl, rfl⟩,
         item, hit, seg, hseg, rfl, rfl, rfl, rfl⟩

/-- Witness for C10 at the concrete record written for one segment. -/
theorem C10_witness :
    (∃ sup, wRec.supervisions = [sup] ∧ sup.id = wRec.id ∧ sup.start = 0
       ∧ sup.duration = wRec.duration)
    ∧ ∃ item ∈ wResults, ∃ seg ∈ item.2,
        wRec.start = seg.start_time ∧ wRec.duration = seg.duration
        ∧ wRec.recording_id = ([wCut].getD item.1.1 default).recording_id
        ∧ wRec.channel = ([wCut].getD item.1.1 default).channel :=
  C10_record_shape [wCut] wResults wRec (by decide)

end Matching
